import Mathlib

/-!
# Verification of the duckarrow Flight SQL extension

Shallow embedding of the core data model and operations of the duckarrow
DuckDB extension (Go sources): the connection pool key derivation
(`configKey` in `internal/flight/pool.go`), the pool state machine
(`Pool.Get` / `Pool.Release` / `Pool.Close`), the Flight client health
model (`Client.IsHealthy` / `Client.Close` in `internal/flight/client.go`),
the metadata fallback dispatch (`GetSchemas` / `GetTables` / `GetColumns`),
the query builder (`buildProjectedQuery` / `extractTableName` in
`query_builder.go`), the projected scan SQL construction
(`duckarrow_go_scan_init`), the configure callback credential handling
(`duckarrow_configure_callback` in `config_function.go`), and the execute
callback error propagation (`duckarrow_execute_callback` in
`execute_function.go`).

Go byte strings are modelled as `List Nat` (byte values) where NUL bytes
matter, and as `List Char` where only character content matters.
-/

namespace Duckarrow

/-! ## Connection config and pool key derivation (`internal/flight/pool.go`) -/

/-- Model of `flight.Config`: URI, username, password, skip-verify.  Fields are Go
strings, modelled as byte lists since they may contain NUL bytes. -/
structure ConfigB where
  uri : List Nat
  username : List Nat
  password : List Nat
  skipVerify : Bool
deriving DecidableEq

/-- The bytes of `fmt.Sprintf("%v", cfg.SkipVerify)`: the ASCII text
`true` or `false`. -/
def svBytes : Bool → List Nat
  | true => [116, 114, 117, 101]
  | false => [102, 97, 108, 115, 101]

/-- The byte string hashed by `Pool.configKey`:
`URI ∥ 0x00 ∥ username ∥ 0x00 ∥ password ∥ 0x00 ∥ skip-verify`.
SHA-256 and hex encoding are abstracted as an injective function of these
bytes, so two configs share a pool key exactly when their encodings are
equal. -/
def encodeConfig (c : ConfigB) : List Nat :=
  c.uri ++ (0 :: (c.username ++ (0 :: (c.password ++ (0 :: svBytes c.skipVerify)))))

/-! ## Flight client (`internal/flight/client.go`) -/

/-- Model of `flight.Client`: wraps an ADBC database handle and connection handle.
`Connect` sets both; no client method ever assigns to them again. -/
structure ClientM where
  conn : Option Unit
  db : Option Unit
deriving DecidableEq

/-- Model of `flight.Connect`: on success both handles are set; on failure no client
is produced.  The parameter stands for whether the dial succeeds. -/
def connectClient (ok : Bool) : Option ClientM :=
  if ok then some ⟨some (), some ()⟩ else none

/-- Model of `Client.IsHealthy`: `c.conn != nil && c.db != nil`. -/
def isHealthyM (c : ClientM) : Bool :=
  c.conn.isSome && c.db.isSome

/-- Model of `Client.Close`: closes the connection then the database, but never
assigns nil to either field, so the handle state is unchanged. -/
def closeClient (c : ClientM) : ClientM :=
  { conn := c.conn, db := c.db }

/-! ## Connection pool (`internal/flight/pool.go`) -/

/-- Model of `flight.PooledClient`: client, pool-key time stamp and in-use flag.
Client identity (the Go pointer) is modelled by an allocation counter
`clientId` drawn from the pool state's `nextId`. -/
structure EntryM where
  client : ClientM
  clientId : Nat
  lastUsed : Nat
  inUse : Bool
deriving DecidableEq

/-- Model of `flight.Pool`: map from config key (the hashed byte string, see
`encodeConfig`) to pooled entries, plus the allocation counter for client
identities and the staleness threshold `maxIdle`. -/
structure PoolStateM where
  clients : List (List Nat × EntryM)
  nextId : Nat
  maxIdle : Nat
deriving DecidableEq

/-- Model of `flight.ConnectionResult`: the returned client and its `IsPooled`
flag. -/
structure GetResultM where
  client : ClientM
  clientId : Nat
  isPooled : Bool
deriving DecidableEq

/-- Association-list lookup, modelling Go map indexing. -/
def alookup (k : List Nat) : List (List Nat × EntryM) → Option EntryM
  | [] => none
  | (k2, e) :: t => if k2 = k then some e else alookup k t

/-- Association-list removal, modelling Go map `delete`. -/
def aerase (k : List Nat) : List (List Nat × EntryM) → List (List Nat × EntryM)
  | [] => []
  | (k2, e) :: t => if k2 = k then aerase k t else (k2, e) :: aerase k t

/-- Association-list write, modelling Go map assignment. -/
def aset (k : List Nat) (e : EntryM) (l : List (List Nat × EntryM)) :
    List (List Nat × EntryM) :=
  (k, e) :: aerase k l

/-- Model of `NewPool`: empty map, `maxIdle` five minutes (300 seconds). -/
def newPool : PoolStateM := ⟨[], 0, 300⟩

/-- The create-new-connection tail of `Pool.Get`: connect, install the
entry with in-use true and last-used now, return as pooled.  On connect
failure the state (including any eviction already performed) is kept and
no result is returned. -/
def poolCreate (s : PoolStateM) (now : Nat) (key : List Nat) (connectOk : Bool) :
    Option GetResultM × PoolStateM :=
  match connectClient connectOk with
  | none => (none, s)
  | some c =>
    (some ⟨c, s.nextId, true⟩,
     { s with clients := aset key ⟨c, s.nextId, now, true⟩ s.clients,
              nextId := s.nextId + 1 })

/-- Model of `Pool.Get`: look up by key; if present and in-use, connect a fresh
non-pooled client; if present, healthy and fresh, mark in-use and return
pooled; if present but unhealthy or stale, close it, remove it, and fall
through to creating a new pooled connection; if absent, create. `now` is
the current time, `connectOk` whether a dial would succeed. -/
def poolGet (s : PoolStateM) (now : Nat) (cfg : ConfigB) (connectOk : Bool) :
    Option GetResultM × PoolStateM :=
  let key := encodeConfig cfg
  match alookup key s.clients with
  | some e =>
    if e.inUse then
      match connectClient connectOk with
      | none => (none, s)
      | some c => (some ⟨c, s.nextId, false⟩, { s with nextId := s.nextId + 1 })
    else if isHealthyM e.client && decide (now - e.lastUsed < s.maxIdle) then
      (some ⟨e.client, e.clientId, true⟩,
       { s with clients := aset key { e with inUse := true, lastUsed := now } s.clients })
    else
      poolCreate { s with clients := aerase key s.clients } now key connectOk
  | none => poolCreate s now key connectOk

/-- Model of `Pool.Release`: if the key is present, clear in-use and refresh
last-used; releasing an unknown key is a no-op. -/
def poolRelease (s : PoolStateM) (now : Nat) (cfg : ConfigB) : PoolStateM :=
  let key := encodeConfig cfg
  match alookup key s.clients with
  | some e =>
    { s with clients := aset key { e with inUse := false, lastUsed := now } s.clients }
  | none => s

/-- Model of `Pool.Close`: close every entry and empty the map. -/
def poolCloseAll (s : PoolStateM) : PoolStateM :=
  { s with clients := [] }

/-- One pool API call, with the environment-chosen time and dial
outcome. -/
inductive PoolOp
  | get (now : Nat) (cfg : ConfigB) (connectOk : Bool)
  | release (now : Nat) (cfg : ConfigB)
  | closeAll

/-- Apply one pool API call to the pool state. -/
def poolStep (s : PoolStateM) : PoolOp → PoolStateM
  | .get now cfg ok => (poolGet s now cfg ok).2
  | .release now cfg => poolRelease s now cfg
  | .closeAll => poolCloseAll s

/-- The pool state reached from `NewPool` by a sequence of API calls. -/
def runPool (ops : List PoolOp) : PoolStateM :=
  ops.foldl poolStep newPool

/-! ## Pool locking discipline as an event trace (`Pool.Get` / `Pool.Release`) -/

/-- Events of one pool call: mutex acquire and release, O(1) map
operations, and the RPCs (`Connect` dials the remote, `Client.Close`
tears a connection down). -/
inductive PEvent
  | lock
  | unlock
  | mapRead
  | mapWrite
  | rpcConnect
  | rpcClose
deriving DecidableEq

/-- Whether some RPC event occurs while the lock depth is positive. -/
def rpcUnderLock : Nat → List PEvent → Bool
  | _, [] => false
  | d, .lock :: t => rpcUnderLock (d + 1) t
  | d, .unlock :: t => rpcUnderLock (d - 1) t
  | d, .rpcConnect :: t => decide (0 < d) || rpcUnderLock d t
  | d, .rpcClose :: t => decide (0 < d) || rpcUnderLock d t
  | d, .mapRead :: t => rpcUnderLock d t
  | d, .mapWrite :: t => rpcUnderLock d t

/-- The event trace of `Pool.Get`: the mutex is acquired immediately after
key derivation and released by `defer` at return, so every branch,
including the ones that call `Connect` or `Client.Close`, runs between
`lock` and `unlock`. -/
def poolGetTrace (s : PoolStateM) (now : Nat) (cfg : ConfigB) (connectOk : Bool) :
    List PEvent :=
  let key := encodeConfig cfg
  [.lock, .mapRead] ++
    (match alookup key s.clients with
     | some e =>
       if e.inUse then [.rpcConnect]
       else if isHealthyM e.client && decide (now - e.lastUsed < s.maxIdle) then
         [.mapWrite]
       else
         [.rpcClose, .mapWrite, .rpcConnect] ++ (if connectOk then [.mapWrite] else [])
     | none => .rpcConnect :: (if connectOk then [.mapWrite] else [])) ++
    [.unlock]

/-- The event trace of `Pool.Release`: lock, lookup, possibly one map
write, unlock — no RPC at all. -/
def poolReleaseTrace (s : PoolStateM) (cfg : ConfigB) : List PEvent :=
  let key := encodeConfig cfg
  [.lock, .mapRead] ++
    (match alookup key s.clients with
     | some _ => [.mapWrite]
     | none => []) ++
    [.unlock]

/-- A concrete connection config used to evaluate the pool model
(`grpc` URI byte 103, username byte 117, password byte 112). -/
def cfgW : ConfigB := ⟨[103], [117], [112], false⟩

/-- A one-call history: a single successful `Get` on `cfgW`, leaving its
pooled entry in use. -/
def opsW : List PoolOp := [PoolOp.get 0 cfgW true]

/-- The pooled entry created by `opsW`: the first connected client, in
use since time 0. -/
def entryW : EntryM := ⟨⟨some (), some ()⟩, 0, 0, true⟩

/-! ## Metadata RPC fallback dispatch (`internal/flight/client.go`,
`GetSchemas` / `GetTables` / `GetColumns`) -/

/-- Model of `Client.GetSchemas`: try the structured ADBC `GetObjects` path; if it
returns an error, return the result of the `information_schema` SQL
fallback instead.  The second component counts how many times the SQL
fallback was attempted.  The ADBC error is not inspected or recorded. -/
def getSchemasD (adbc : Except (List Char) (List (List Char)))
    (sqlFallback : Except (List Char) (List (List Char))) :
    Except (List Char) (List (List Char)) × Nat :=
  match adbc with
  | .ok v => (.ok v, 0)
  | .error _ => (sqlFallback, 1)

/-- Model of `getSchemasViaSQL`: a failing `Query` for
`SELECT schema_name FROM information_schema.schemata` is wrapped as
`query schemas: <err>`. -/
def getSchemasViaSQLErr (e : List Char) : Except (List Char) (List (List Char)) :=
  .error ((String.toList "query schemas: ") ++ e)

/-- Model of `TableInfo`: schema plus table name. -/
structure TableInfoM where
  schema : List Char
  name : List Char
deriving DecidableEq

/-- Model of `Client.GetTables`: same dispatch shape as `GetSchemas`. -/
def getTablesD (adbc : Except (List Char) (List TableInfoM))
    (sqlFallback : Except (List Char) (List TableInfoM)) :
    Except (List Char) (List TableInfoM) × Nat :=
  match adbc with
  | .ok v => (.ok v, 0)
  | .error _ => (sqlFallback, 1)

/-- Model of `ColumnInfo`: name, type string, nullable flag, ordinal position. -/
structure ColumnInfoM where
  name : List Char
  typeName : List Char
  nullable : Bool
  ordinalPosition : Int
deriving DecidableEq

/-- Model of `Client.GetColumns`: same dispatch shape as `GetSchemas`. -/
def getColumnsD (adbc : Except (List Char) (List ColumnInfoM))
    (sqlFallback : Except (List Char) (List ColumnInfoM)) :
    Except (List Char) (List ColumnInfoM) × Nat :=
  match adbc with
  | .ok v => (.ok v, 0)
  | .error _ => (sqlFallback, 1)

/-! ## ADBC column row assembly (`getColumnsViaADBC`) -/

/-- One column row as assembled by `getColumnsViaADBC`: the name is
required; ordinal position and type name default to the Go zero values
when the `xdbc` field is missing or null; the nullable flag is set to
`xdbc_nullable == 1` when the indicator is present, and keeps the Go zero
value `false` when it is absent or null. -/
def mkADBCColumn (name : List Char) (ordinal : Option Int)
    (typeName : Option (List Char)) (xdbcNullable : Option Int) : ColumnInfoM :=
  { name := name,
    ordinalPosition := ordinal.getD 0,
    typeName := typeName.getD [],
    nullable := match xdbcNullable with
      | some v => decide (v = 1)
      | none => false }

/-! ## Execute scalar function (`execute_function.go` and
`Client.Execute`) -/

/-- Model of `Client.Execute`: create a statement, set the SQL, call
`ExecuteUpdate`, each remote interaction parameterised by its outcome;
errors are wrapped with the fixed context prefixes of the source. -/
def clientExecute (stmtCreate setQuery : Except (List Char) Unit)
    (executeUpdate : Except (List Char) Int) : Except (List Char) Int :=
  match stmtCreate with
  | .error e => .error ((String.toList "create statement: ") ++ e)
  | .ok _ =>
    match setQuery with
    | .error e => .error ((String.toList "set query: ") ++ e)
    | .ok _ =>
      match executeUpdate with
      | .error e => .error ((String.toList "execute update: ") ++ e)
      | .ok n => .ok n

/-- Model of `duckarrow_execute_callback`, per-row logic after a connection was
obtained: validate the SQL (non-empty, at most 1 MiB, no NUL byte), then
run `Client.Execute`; a failure is reported as
`duckarrow_execute: remote server: <err>`, a success writes the affected
row count. -/
def duckarrowExecuteRow (sql : List Char)
    (stmtCreate setQuery : Except (List Char) Unit)
    (executeUpdate : Except (List Char) Int) : Except (List Char) Int :=
  if sql.length = 0 then
    .error (String.toList "duckarrow_execute: SQL statement cannot be empty")
  else if 1048576 < sql.length then
    .error (String.toList
      "duckarrow_execute: SQL statement exceeds maximum length (1MB)")
  else if sql.contains (Char.ofNat 0) then
    .error (String.toList
      "duckarrow_execute: SQL statement contains invalid null byte")
  else
    match clientExecute stmtCreate setQuery executeUpdate with
    | .error e =>
      .error ((String.toList "duckarrow_execute: remote server: ") ++ e)
    | .ok n => .ok n

/-! ## Configure scalar function (`config_function.go`) -/

/-- Model of `flight.Config` over characters, as stored by `SetDuckArrowConfig`. -/
structure GlobalConfigM where
  uri : List Char
  username : List Char
  password : List Char
  skipVerify : Bool
deriving DecidableEq

/-- Model of `duckarrow_configure_callback`, per-row logic after the URI has been
validated: the username and password are taken from the parameters
(`none` models a NULL parameter, which yields the empty string), the
skip-verify flag from the optional fourth parameter, and the results are
stored verbatim by `SetDuckArrowConfig`.  No environment variable is
consulted anywhere in the callback. -/
def configureStore (uri : List Char) (usernameParam passwordParam : Option (List Char))
    (skipVerify : Bool) : GlobalConfigM :=
  { uri := uri,
    username := usernameParam.getD [],
    password := passwordParam.getD [],
    skipVerify := skipVerify }

/-- Modelled from the spec: the documented credential precedence
`function parameter > environment > empty` for `<PREFIX>_USERNAME` /
`<PREFIX>_PASSWORD` (README "Environment Variables" section and
`env_var_test.sql`); this lookup is absent from the code. -/
def specCredential (param env : List Char) : List Char :=
  if param = [] then env else param

/-! ## Identifier quoting and the projected scan SQL
(`duckarrow_go_scan_init` and `query_builder.go`) -/

/-- Model of `strings.ReplaceAll(s, quote, quotequote)`: double every embedded
double-quote character. -/
def escQ : List Char → List Char
  | [] => []
  | '"' :: rest => '"' :: '"' :: escQ rest
  | c :: rest => c :: escQ rest

/-- Model of `fmt.Sprintf` of a quoted identifier: escape and wrap in double
quotes. -/
def quoteIdent (s : List Char) : List Char :=
  '"' :: (escQ s ++ ['"'])

/-- Model of `strings.Join(cols, comma-space)`. -/
def joinComma : List (List Char) → List Char
  | [] => []
  | [x] => x
  | x :: xs => x ++ (',' :: ' ' :: joinComma xs)

/-- The select list built by `duckarrow_go_scan_init`: `*` when the
projection is empty or its length equals the column count; otherwise the
quoted projected column names joined by comma-space, in projection order,
with an out-of-range index contributing the Go zero-value empty string. -/
def scanColumnList (names : List (List Char)) (proj : List Nat) : List Char :=
  if proj.length = 0 ∨ proj.length = names.length then ['*']
  else
    joinComma (proj.map (fun idx =>
      if idx < names.length then quoteIdent (names.getD idx []) else []))

/-- The full remote SQL built by `duckarrow_go_scan_init`: select list
plus the quoted (schema-qualified when a schema name is set) table. -/
def scanInitQuery (names : List (List Char)) (schemaName tableName : List Char)
    (proj : List Nat) : List Char :=
  (String.toList "SELECT ") ++ scanColumnList names proj ++
    (String.toList " FROM ") ++
    (if schemaName = [] then quoteIdent tableName
     else quoteIdent schemaName ++ ('.' :: quoteIdent tableName))

/-- The column names of the C4 scenario: `id`, `name`, `status`. -/
def namesW : List (List Char) :=
  [String.toList "id", String.toList "name", String.toList "status"]

/-! ## `query_builder.go`: `buildProjectedQuery` and `extractTableName` -/

/-- Model of `buildProjectedQuery`: `SELECT <cols> FROM "<escaped table>"`, with
`*` when the column list is empty and each column escaped and quoted
otherwise. -/
def buildProjectedQuery (t : List Char) (cols : List (List Char)) : List Char :=
  (String.toList "SELECT ") ++
    (match cols with
     | [] => ['*']
     | _ => joinComma (cols.map quoteIdent)) ++
    (String.toList " FROM ") ++ quoteIdent t

/-- Model of `strings.ReplaceAll(s, quotequote, quote)`: collapse doubled quotes,
scanning left to right over non-overlapping occurrences. -/
def unescapeQ : List Char → List Char
  | [] => []
  | [c] => [c]
  | c :: c2 :: rest =>
    if c = '"' ∧ c2 = '"' then '"' :: unescapeQ rest
    else c :: unescapeQ (c2 :: rest)

/-- Go regexp `\s`: space, tab, newline, carriage return, form feed. -/
def isWsG (c : Char) : Bool :=
  c = ' ' || c = Char.ofNat 9 || c = Char.ofNat 10 || c = Char.ofNat 13 ||
    c = Char.ofNat 12

/-- ASCII lower-casing, for the `(?i)` flag of the Go regexes. -/
def lowerChar (c : Char) : Char :=
  if 'A' ≤ c && c ≤ 'Z' then Char.ofNat (c.toNat + 32) else c

/-- Match a literal word case-insensitively (pattern given in lowercase)
and return the rest of the input. -/
def dropLitCI : List Char → List Char → Option (List Char)
  | [], s => some s
  | _ :: _, [] => none
  | p :: ps, c :: cs => if lowerChar c = p then dropLitCI ps cs else none

/-- Greedy `\s+`: at least one whitespace character, then all following
whitespace. -/
def dropWs1 : List Char → Option (List Char)
  | [] => none
  | c :: cs => if isWsG c then some (cs.dropWhile (fun x => isWsG x)) else none

/-- Match one exact character. -/
def dropChar (ch : Char) : List Char → Option (List Char)
  | [] => none
  | c :: cs => if c = ch then some cs else none

/-- The capture group `[^quote]*(?:quotequote[^quote]*)*` followed by the
closing quote, with the regex's greedy longest-submatch semantics: pairs
of quotes are consumed into the group when the remainder still closes,
otherwise the first quote of the pair closes the identifier.  Returns the
group and the input after the closing quote. -/
def parseGroup : List Char → Option (List Char × List Char)
  | [] => none
  | [c] => if c = '"' then some ([], []) else none
  | c :: c2 :: rest =>
    if c = '"' then
      if c2 = '"' then
        match parseGroup rest with
        | some (g, r) => some ('"' :: '"' :: g, r)
        | none => some ([], c2 :: rest)
      else some ([], c2 :: rest)
    else
      match parseGroup (c2 :: rest) with
      | some (g, r) => some (c :: g, r)
      | none => none

/-- One anchored attempt of the first `extractTableName` regex
`(?i)SELECT\s+\*\s+FROM\s+"([^quote]*(?:quotequote[^quote]*)*)"`,
returning the capture group. -/
def matchProjAt (s : List Char) : Option (List Char) :=
  match dropLitCI (String.toList "select") s with
  | none => none
  | some s1 =>
    match dropWs1 s1 with
    | none => none
    | some s2 =>
      match dropChar '*' s2 with
      | none => none
      | some s3 =>
        match dropWs1 s3 with
        | none => none
        | some s4 =>
          match dropLitCI (String.toList "from") s4 with
          | none => none
          | some s5 =>
            match dropWs1 s5 with
            | none => none
            | some s6 =>
              match dropChar '"' s6 with
              | none => none
              | some s7 =>
                match parseGroup s7 with
                | none => none
                | some (g, _) => some g

/-- Leftmost search for the first regex: try every start position from
the left. -/
def findProjMatch : List Char → Option (List Char)
  | [] => none
  | c :: rest =>
    match matchProjAt (c :: rest) with
    | some g => some g
    | none => findProjMatch rest

/-- One anchored attempt of the fallback regex
`(?i)SELECT\s+\*\s+FROM\s+(\S+)`. -/
def matchFallbackAt (s : List Char) : Option (List Char) :=
  match dropLitCI (String.toList "select") s with
  | none => none
  | some s1 =>
    match dropWs1 s1 with
    | none => none
    | some s2 =>
      match dropChar '*' s2 with
      | none => none
      | some s3 =>
        match dropWs1 s3 with
        | none => none
        | some s4 =>
          match dropLitCI (String.toList "from") s4 with
          | none => none
          | some s5 =>
            match dropWs1 s5 with
            | none => none
            | some s6 =>
              match s6 with
              | [] => none
              | c :: _ =>
                if isWsG c then none
                else some (s6.takeWhile (fun x => !isWsG x))

/-- Leftmost search for the fallback regex. -/
def findFallback : List Char → Option (List Char)
  | [] => none
  | c :: rest =>
    match matchFallbackAt (c :: rest) with
    | some m => some m
    | none => findFallback rest

/-- Model of `extractTableName`: first regex (with unescaping of doubled quotes on
its capture group), then the unquoted fallback regex (returned raw), then
the empty string. -/
def extractTableName (q : List Char) : List Char :=
  match findProjMatch q with
  | some g => unescapeQ g
  | none =>
    match findFallback q with
    | some m => m
    | none => []

end Duckarrow

namespace Duckarrow

/-- If `a` and `c` contain no 0 byte then the 0-delimited concatenations
`a ++ 0 :: b` and `c ++ 0 :: d` agree only when the components agree. -/
theorem nulDelim_inj (a : List Nat) :
    ∀ (c b d : List Nat), 0 ∉ a → 0 ∉ c →
      a ++ 0 :: b = c ++ 0 :: d → a = c ∧ b = d := by
  induction a with
  | nil =>
    intro c b d _ hc h
    cases c with
    | nil => simpa using h
    | cons y ys =>
      simp only [List.nil_append, List.cons_append, List.cons.injEq] at h
      exact absurd (List.mem_cons.mpr (Or.inl h.1)) hc
  | cons x xs ih =>
    intro c b d ha hc h
    cases c with
    | nil =>
      simp only [List.nil_append, List.cons_append, List.cons.injEq] at h
      exact absurd (List.mem_cons.mpr (Or.inl h.1.symm)) ha
    | cons y ys =>
      simp only [List.cons_append, List.cons.injEq] at h
      obtain ⟨hxy, hrest⟩ := h
      have ha' : 0 ∉ xs := fun hm => ha (List.mem_cons_of_mem _ hm)
      have hc' : 0 ∉ ys := fun hm => hc (List.mem_cons_of_mem _ hm)
      obtain ⟨h1, h2⟩ := ih ys b d ha' hc' hrest
      exact ⟨by rw [hxy, h1], h2⟩

/-- Reversing a 0-delimited pair swaps the components. -/
theorem reverse_nulDelim (p sv : List Nat) :
    (p ++ 0 :: sv).reverse = sv.reverse ++ 0 :: p.reverse := by
  simp [List.reverse_append, List.reverse_cons, List.append_assoc]

/-- The skip-verify byte text determines the flag. -/
theorem svBytes_inj : ∀ b1 b2, svBytes b1 = svBytes b2 → b1 = b2 := by decide

/-- The skip-verify byte text contains no NUL byte. -/
theorem svBytes_noNul : ∀ b, 0 ∉ svBytes b := by decide

/-- C1 (counterexample): the NUL-delimited encoding hashed by
`Pool.configKey` is not injective on configs whose fields contain NUL
bytes: the config with URI `a\x00b`, username `c` and the config with URI
`a`, username `b\x00c` (same empty password, same skip-verify) produce the
same hashed byte string, so the claim as stated is false. -/
theorem configKey_collision :
    encodeConfig ⟨[97, 0, 98], [99], [], false⟩ =
      encodeConfig ⟨[97], [98, 0, 99], [], false⟩ ∧
    (⟨[97, 0, 98], [99], [], false⟩ : ConfigB) ≠ ⟨[97], [98, 0, 99], [], false⟩ := by
  exact ⟨rfl, by decide⟩

/-- C1 (amended): the NUL-delimited string hashed by `Pool.configKey` is an
injective encoding of the connection config provided the URI and username
contain no NUL byte (the password and the skip-verify text are then
recovered unambiguously, since the skip-verify text `true`/`false` is
NUL-free): equal pool keys imply component-wise equal configs. -/
theorem configKey_injective_of_noNul (c1 c2 : ConfigB)
    (h1 : 0 ∉ c1.uri) (h2 : 0 ∉ c1.username)
    (h3 : 0 ∉ c2.uri) (h4 : 0 ∉ c2.username)
    (h : encodeConfig c1 = encodeConfig c2) : c1 = c2 := by
  unfold encodeConfig at h
  obtain ⟨hu, h⟩ := nulDelim_inj _ _ _ _ h1 h3 h
  obtain ⟨hn, h⟩ := nulDelim_inj _ _ _ _ h2 h4 h
  have h' := congrArg List.reverse h
  rw [reverse_nulDelim, reverse_nulDelim] at h'
  obtain ⟨hs, hp⟩ := nulDelim_inj _ _ _ _
    (fun hm => svBytes_noNul c1.skipVerify (List.mem_reverse.mp hm))
    (fun hm => svBytes_noNul c2.skipVerify (List.mem_reverse.mp hm)) h'
  have hsv : c1.skipVerify = c2.skipVerify :=
    svBytes_inj _ _ (List.reverse_injective hs)
  have hpw : c1.password = c2.password := List.reverse_injective hp
  cases c1; cases c2; simp_all

/-- C1 witness: the amended injectivity applied at a concrete NUL-free
config. -/
theorem configKey_injective_of_noNul_witness :
    (0 : Nat) ∉ ([103] : List Nat) ∧
    (⟨[103], [117], [112], true⟩ : ConfigB) = ⟨[103], [117], [112], true⟩ :=
  ⟨by decide,
   configKey_injective_of_noNul ⟨[103], [117], [112], true⟩ ⟨[103], [117], [112], true⟩
     (by decide) (by decide) (by decide) (by decide) rfl⟩

/-! ## Pool state machine lemmas -/

theorem alookup_aerase_self (k : List Nat) (l : List (List Nat × EntryM)) :
    alookup k (aerase k l) = none := by
  induction l with
  | nil => rfl
  | cons p t ih =>
    obtain ⟨k2, e⟩ := p
    by_cases h : k2 = k
    · simp [aerase, h, ih]
    · simp [aerase, alookup, h, ih]

theorem alookup_aerase_ne (k k2 : List Nat) (l : List (List Nat × EntryM))
    (h : k2 ≠ k) : alookup k2 (aerase k l) = alookup k2 l := by
  induction l with
  | nil => rfl
  | cons p t ih =>
    obtain ⟨k3, e⟩ := p
    by_cases h3 : k3 = k
    · have hne : ¬(k = k2) := fun hh => h hh.symm
      simp [aerase, alookup, h3, hne, ih]
    · simp [aerase, alookup, h3, ih]

theorem alookup_aset_self (k : List Nat) (e : EntryM) (l : List (List Nat × EntryM)) :
    alookup k (aset k e l) = some e := by
  simp [aset, alookup]

theorem alookup_aset_ne (k k2 : List Nat) (e : EntryM) (l : List (List Nat × EntryM))
    (h : k2 ≠ k) : alookup k2 (aset k e l) = alookup k2 l := by
  have hne : ¬(k = k2) := fun hh => h hh.symm
  simp [aset, alookup, hne, alookup_aerase_ne k k2 l h]

/-- The pool invariant: every stored entry's client identity is below the
allocation counter, and every stored client is healthy. -/
def poolInv (s : PoolStateM) : Prop :=
  ∀ k e, alookup k s.clients = some e →
    e.clientId < s.nextId ∧ isHealthyM e.client = true

theorem poolInv_poolCreate (s : PoolStateM) (now : Nat) (key : List Nat) (ok : Bool)
    (h : poolInv s) : poolInv (poolCreate s now key ok).2 := by
  cases ok with
  | false => simpa [poolCreate, connectClient] using h
  | true =>
    intro k e he
    simp only [poolCreate, connectClient, if_true] at he
    by_cases hk : k = key
    · subst hk
      rw [alookup_aset_self] at he
      cases he
      exact ⟨Nat.lt_succ_self _, rfl⟩
    · rw [alookup_aset_ne _ _ _ _ hk] at he
      exact ⟨Nat.lt_succ_of_lt (h k e he).1, (h k e he).2⟩

theorem poolInv_aerase (s : PoolStateM) (key : List Nat) (h : poolInv s) :
    poolInv { s with clients := aerase key s.clients } := by
  intro k e he
  by_cases hk : k = key
  · subst hk; rw [alookup_aerase_self] at he; cases he
  · rw [alookup_aerase_ne _ _ _ hk] at he
    exact h k e he

theorem poolInv_poolRelease (s : PoolStateM) (now : Nat) (cfg : ConfigB)
    (h : poolInv s) : poolInv (poolRelease s now cfg) := by
  unfold poolRelease
  dsimp only
  cases hl : alookup (encodeConfig cfg) s.clients with
  | none => exact h
  | some e2 =>
    try dsimp only
    intro k e he
    try dsimp only at he ⊢
    by_cases hk : k = encodeConfig cfg
    · subst hk
      rw [alookup_aset_self] at he
      cases he
      exact ⟨(h _ _ hl).1, (h _ _ hl).2⟩
    · rw [alookup_aset_ne _ _ _ _ hk] at he
      exact h k e he

theorem poolInv_step (s : PoolStateM) (op : PoolOp) (h : poolInv s) :
    poolInv (poolStep s op) := by
  cases op with
  | closeAll => intro k e he; cases he
  | release now cfg => exact poolInv_poolRelease s now cfg h
  | get now cfg ok =>
    simp only [poolStep, poolGet]
    cases hl : alookup (encodeConfig cfg) s.clients with
    | none => exact poolInv_poolCreate s now _ ok h
    | some e2 =>
      try dsimp only
      by_cases hu : e2.inUse = true
      · rw [if_pos hu]
        cases ok with
        | false => simpa [connectClient] using h
        | true =>
          intro k e he
          simp only [connectClient, if_true] at he
          try dsimp only at he ⊢
          exact ⟨Nat.lt_succ_of_lt (h k e he).1, (h k e he).2⟩
      · rw [if_neg hu]
        by_cases hf : (isHealthyM e2.client && decide (now - e2.lastUsed < s.maxIdle)) = true
        · rw [if_pos hf]
          intro k e he
          try dsimp only at he ⊢
          by_cases hk : k = encodeConfig cfg
          · subst hk
            rw [alookup_aset_self] at he
            cases he
            exact ⟨(h _ _ hl).1, (h _ _ hl).2⟩
          · rw [alookup_aset_ne _ _ _ _ hk] at he
            exact h k e he
        · rw [if_neg hf]
          exact poolInv_poolCreate _ now _ ok (poolInv_aerase s _ h)

theorem alookup_poolCreate_ne (s : PoolStateM) (now : Nat) (key2 : List Nat)
    (ok : Bool) (k : List Nat) (h : k ≠ key2) :
    alookup k ((poolCreate s now key2 ok).2).clients = alookup k s.clients := by
  cases ok with
  | false => rfl
  | true =>
    simp only [poolCreate, connectClient, if_true]
    exact alookup_aset_ne _ _ _ _ h

theorem poolInv_run (ops : List PoolOp) : poolInv (runPool ops) := by
  have base : poolInv newPool := by intro k e he; cases he
  rw [runPool]
  generalize hs : newPool = s at base
  clear hs
  induction ops generalizing s with
  | nil => exact base
  | cons op t ih => exact ih _ (poolInv_step s op base)

/-- C5: in every pool state reachable by a sequence of `Get` and `Release`
calls (and `Close`), an entry whose in-use flag is true is never handed
out again: a `Get` for the same key returns a non-pooled (`IsPooled =
false`) freshly connected client distinct from the entry's client, and
any `Get` whatsoever (same key or different) leaves the in-use entry
exactly as it was — only `Release` (or eviction of a not-in-use entry)
changes it. -/
theorem pool_inuse_entry_never_reassigned (ops : List PoolOp) (cfg : ConfigB)
    (e : EntryM)
    (he : alookup (encodeConfig cfg) (runPool ops).clients = some e)
    (hu : e.inUse = true) :
    (∀ now ok r s2, poolGet (runPool ops) now cfg ok = (some r, s2) →
       r.isPooled = false ∧ r.clientId ≠ e.clientId) ∧
    (∀ now cfg2 ok,
       alookup (encodeConfig cfg) ((poolGet (runPool ops) now cfg2 ok).2).clients =
         some e) := by
  have hinv := poolInv_run ops
  set s := runPool ops with hs
  constructor
  · intro now ok r s2 hres
    simp only [poolGet, he, hu, if_true] at hres
    cases ok with
    | false => simp [connectClient] at hres
    | true =>
      simp only [connectClient, if_true] at hres
      have hr : r = ⟨⟨some (), some ()⟩, s.nextId, false⟩ := by
        have := congrArg Prod.fst hres
        simp at this
        exact this.symm
      subst hr
      refine ⟨rfl, ?_⟩
      have hlt := (hinv _ _ he).1
      exact fun hcontra => absurd (hcontra ▸ hlt) (lt_irrefl _)
  · intro now cfg2 ok
    by_cases hk : encodeConfig cfg2 = encodeConfig cfg
    · rw [poolGet]
      simp only [hk, he, hu, if_true]
      cases ok with
      | false => simpa [connectClient] using he
      | true => simpa [connectClient] using he
    · rw [poolGet]
      cases hl2 : alookup (encodeConfig cfg2) s.clients with
      | none =>
        rw [alookup_poolCreate_ne _ _ _ _ _ (fun hh => hk hh.symm)]
        exact he
      | some e2 =>
        try dsimp only
        by_cases hu2 : e2.inUse = true
        · rw [if_pos hu2]
          cases ok with
          | false => simpa [connectClient] using he
          | true => simpa [connectClient] using he
        · rw [if_neg hu2]
          by_cases hf : (isHealthyM e2.client && decide (now - e2.lastUsed < s.maxIdle)) = true
          · rw [if_pos hf]
            try dsimp only
            rw [alookup_aset_ne _ _ _ _ (fun hh => hk hh.symm)]
            exact he
          · rw [if_neg hf]
            rw [alookup_poolCreate_ne _ _ _ _ _ (fun hh => hk hh.symm)]
            try dsimp only
            rw [alookup_aerase_ne _ _ _ (fun hh => hk hh.symm)]
            exact he

/-- C5 witness: after a single successful `Get` on `cfgW`, the pooled
entry is in use; a second `Get` while in use does not disturb it. -/
theorem pool_inuse_entry_never_reassigned_witness :
    alookup (encodeConfig cfgW) (runPool opsW).clients = some entryW ∧
    entryW.inUse = true ∧
    alookup (encodeConfig cfgW) ((poolGet (runPool opsW) 5 cfgW true).2).clients =
      some entryW :=
  ⟨by decide, rfl,
   (pool_inuse_entry_never_reassigned opsW cfgW entryW (by decide) rfl).2 5 cfgW true⟩

/-- C9 (counterexample): `Pool.Get` on a key that is absent from the pool
calls `Connect` between acquiring and releasing the pool mutex (the lock
is released by `defer` only at return), so the claim that the mutex is
never held across an RPC is false. -/
theorem poolGet_connect_under_mutex :
    rpcUnderLock 0 (poolGetTrace newPool 0 cfgW true) = true := by decide

/-- C9 (amended): `Pool.Release` holds the pool mutex only for O(1) map
operations (no RPC occurs under the lock), but in `Pool.Get` every
`Connect` RPC that occurs does so while the pool mutex is held. -/
theorem pool_mutex_discipline_amended :
    (∀ s cfg, rpcUnderLock 0 (poolReleaseTrace s cfg) = false) ∧
    (∀ s now cfg ok, PEvent.rpcConnect ∈ poolGetTrace s now cfg ok →
       rpcUnderLock 0 (poolGetTrace s now cfg ok) = true) := by
  constructor
  · intro s cfg
    rw [poolReleaseTrace]
    cases alookup (encodeConfig cfg) s.clients <;> rfl
  · intro s now cfg ok
    rw [poolGetTrace]
    cases alookup (encodeConfig cfg) s.clients with
    | none =>
      intro _
      cases ok <;> rfl
    | some e =>
      try dsimp only
      by_cases hu : e.inUse = true
      · rw [if_pos hu]
        intro _
        rfl
      · rw [if_neg hu]
        by_cases hf : (isHealthyM e.client && decide (now - e.lastUsed < s.maxIdle)) = true
        · rw [if_pos hf]
          intro hmem
          simp at hmem
        · rw [if_neg hf]
          intro _
          cases ok <;> rfl

/-- C9 witness for the amended statement: the absent-key `Get` contains a
`Connect` event, and that run holds the mutex across it. -/
theorem pool_mutex_discipline_amended_witness :
    PEvent.rpcConnect ∈ poolGetTrace newPool 3 cfgW true ∧
    rpcUnderLock 0 (poolGetTrace newPool 3 cfgW true) = true :=
  ⟨by decide, pool_mutex_discipline_amended.2 newPool 3 cfgW true (by decide)⟩

/-- C10: a successfully connected client has both handles set, `Close`
never clears them (it is the identity on the handle state), so
`IsHealthy` returns true even after `Close`; consequently every client
stored in any reachable pool state is healthy and the health check in
`Pool.Get` can never observe it as unhealthy. -/
theorem client_health_preserved :
    (∀ ok c, connectClient ok = some c →
       isHealthyM c = true ∧ closeClient c = c ∧ isHealthyM (closeClient c) = true) ∧
    (∀ ops k e, alookup k (runPool ops).clients = some e →
       isHealthyM e.client = true) := by
  constructor
  · intro ok c h
    cases ok with
    | false => simp [connectClient] at h
    | true =>
      simp only [connectClient, if_true, Option.some.injEq] at h
      subst h
      exact ⟨rfl, rfl, rfl⟩
  · intro ops k e h
    exact (poolInv_run ops k e h).2

/-- C6 (counterexample): when both the structured metadata RPC and the
SQL fallback of `GetSchemas` fail, the returned error is only the
fallback's wrapped error; the ADBC failure message does not occur in it,
so the two failures are not reported together. -/
theorem metadata_fallback_drops_adbc_error :
    (getSchemasD (.error (String.toList "get objects: rpc broke"))
        (getSchemasViaSQLErr (String.toList "sql broke"))).1 =
      .error (String.toList "query schemas: sql broke") ∧
    ¬ List.IsInfix (String.toList "rpc broke")
        (String.toList "query schemas: sql broke") := by
  exact ⟨rfl, by decide⟩

/-- C6 (amended): for each metadata operation (`GetSchemas`, `GetTables`,
`GetColumns`) the SQL fallback is attempted exactly once when the
structured RPC fails and never otherwise, and on double failure the
result is the fallback's error alone — independent of the structured
RPC's error, which is dropped. -/
theorem metadata_fallback_once :
    (∀ (e : List Char) sq, getSchemasD (.error e) sq = (sq, 1)) ∧
    (∀ v sq, getSchemasD (.ok v) sq = (.ok v, 0)) ∧
    (∀ (e : List Char) sq, getTablesD (.error e) sq = (sq, 1)) ∧
    (∀ v sq, getTablesD (.ok v) sq = (.ok v, 0)) ∧
    (∀ (e : List Char) sq, getColumnsD (.error e) sq = (sq, 1)) ∧
    (∀ v sq, getColumnsD (.ok v) sq = (.ok v, 0)) :=
  ⟨fun _ _ => rfl, fun _ _ => rfl, fun _ _ => rfl,
   fun _ _ => rfl, fun _ _ => rfl, fun _ _ => rfl⟩

/-- C7 (counterexample): a remote failure of the execute function is
reported as `duckarrow_execute: remote server: execute update: <msg>`,
not as the function name alone prefixed to the remote message, so the
claim that only the function name is prefixed is false. -/
theorem execute_error_prefix_counterexample :
    duckarrowExecuteRow (String.toList "DROP TABLE t") (.ok ()) (.ok ())
        (.error (String.toList "boom")) =
      .error (String.toList
        "duckarrow_execute: remote server: execute update: boom") ∧
    duckarrowExecuteRow (String.toList "DROP TABLE t") (.ok ()) (.ok ())
        (.error (String.toList "boom")) ≠
      .error ((String.toList "duckarrow_execute: ") ++ (String.toList "boom")) := by
  refine ⟨rfl, fun h => ?_⟩
  rw [show duckarrowExecuteRow (String.toList "DROP TABLE t") (.ok ()) (.ok ())
      (.error (String.toList "boom")) =
      .error (String.toList
        "duckarrow_execute: remote server: execute update: boom") from rfl] at h
  rw [Except.error.injEq] at h
  exact absurd h (by decide)

/-- C7 (amended): for a valid non-empty SQL argument, on remote success
the execute function returns the driver-reported affected-row count
verbatim (including the −1 convention for unreported counts), and on
remote failure it returns the remote message verbatim behind the fixed
prefix `duckarrow_execute: remote server: execute update: `. -/
theorem execute_passthrough_amended (sql : List Char)
    (h1 : sql ≠ []) (h2 : sql.length ≤ 1048576)
    (h3 : ¬ sql.contains (Char.ofNat 0) = true) :
    (∀ n : Int, duckarrowExecuteRow sql (.ok ()) (.ok ()) (.ok n) = .ok n) ∧
    (∀ e : List Char, duckarrowExecuteRow sql (.ok ()) (.ok ()) (.error e) =
       .error ((String.toList
         "duckarrow_execute: remote server: execute update: ") ++ e)) := by
  have h1a : ¬ sql.length = 0 := by simpa [List.length_eq_zero] using h1
  have h2a : ¬ 1048576 < sql.length := not_lt.mpr h2
  have h3a : Char.ofNat 0 ∉ sql := by simpa using h3
  have hsplit : (String.toList
      "duckarrow_execute: remote server: execute update: ") =
      (String.toList "duckarrow_execute: remote server: ") ++
        (String.toList "execute update: ") := rfl
  constructor
  · intro n
    simp [duckarrowExecuteRow, clientExecute, h1a, h2a, h3a]
  · intro e
    simp [duckarrowExecuteRow, clientExecute, h1a, h2a, h3a, hsplit,
      List.append_assoc]

/-- C7 witness: the amended pass-through applied to a concrete statement
with the unreported-count value −1. -/
theorem execute_passthrough_amended_witness :
    (String.toList "DROP TABLE x") ≠ [] ∧
    duckarrowExecuteRow (String.toList "DROP TABLE x") (.ok ()) (.ok ())
        (.ok (-1)) = .ok (-1) :=
  ⟨by decide,
   (execute_passthrough_amended (String.toList "DROP TABLE x")
     (by decide) (by decide) (by decide)).1 (-1)⟩

/-- C3 (counterexample): a column row built by `getColumnsViaADBC` with
nullability indicator 2 (unknown), or with the indicator absent, has
`Nullable = false` — it is treated as NOT nullable, contradicting the
claim that it is treated as nullable. -/
theorem adbc_nullable_indicator_counterexample :
    (mkADBCColumn (String.toList "c") none none (some 2)).nullable = false ∧
    (mkADBCColumn (String.toList "c") none none none).nullable = false :=
  ⟨rfl, rfl⟩

/-- C3 (amended): a column row produced via the structured metadata RPC is
reported nullable exactly when the indicator is present and equals 1;
indicator 0, indicator 2 (unknown) and an absent indicator all yield not
nullable (the Go zero value). -/
theorem adbc_nullable_iff_one (name : List Char) (ord : Option Int)
    (ty : Option (List Char)) :
    ∀ i : Option Int, (mkADBCColumn name ord ty i).nullable = true ↔ i = some 1 := by
  intro i
  cases i with
  | none => simp [mkADBCColumn]
  | some v => simp [mkADBCColumn]

/-- C2 (code bug): the configure callback stores an empty username when
the parameter is the empty string, ignoring the environment; under the
documented precedence (parameter > environment > empty) the stored value
should have been the environment value. -/
theorem configure_ignores_environment :
    (configureStore (String.toList "grpc://h:1") (some []) (some [])
        false).username = [] ∧
    specCredential [] (String.toList "alice") = String.toList "alice" ∧
    (configureStore (String.toList "grpc://h:1") (some []) (some [])
        false).username ≠ specCredential [] (String.toList "alice") := by
  exact ⟨rfl, rfl, by decide⟩

/-- C4: for a projection that is a duplicate-free list of in-range column
indices, the select list built by `duckarrow_go_scan_init` is `*` exactly
when the projection is empty or covers the full column set, and otherwise
consists of exactly the quoted identifiers of the projected columns in
projection order. -/
theorem scan_init_projection (names : List (List Char)) (proj : List Nat)
    (hnd : proj.Nodup) (hbd : ∀ i ∈ proj, i < names.length) :
    ((proj = [] ∨ ∀ i, i < names.length → i ∈ proj) →
       scanColumnList names proj = ['*']) ∧
    (proj ≠ [] → ¬ (∀ i, i < names.length → i ∈ proj) →
       scanColumnList names proj =
         joinComma (proj.map (fun idx => quoteIdent (names.getD idx [])))) := by
  have hsub : proj.toFinset ⊆ Finset.range names.length := by
    intro x hx
    exact Finset.mem_range.mpr (hbd x (List.mem_toFinset.mp hx))
  have hcard : proj.toFinset.card = proj.length := List.toFinset_card_of_nodup hnd
  constructor
  · rintro (hempty | hfull)
    · subst hempty
      simp [scanColumnList]
    · have hsup : Finset.range names.length ⊆ proj.toFinset := by
        intro x hx
        exact List.mem_toFinset.mpr (hfull x (Finset.mem_range.mp hx))
      have heq : proj.toFinset = Finset.range names.length :=
        le_antisymm hsub hsup
      have hlen : proj.length = names.length := by
        rw [← hcard, heq, Finset.card_range]
      simp [scanColumnList, hlen]
  · intro hne hnf
    have hlen0 : ¬ proj.length = 0 := by
      simpa [List.length_eq_zero] using hne
    have hlenn : ¬ proj.length = names.length := by
      intro hlen
      apply hnf
      intro i hi
      have hcards : (Finset.range names.length).card ≤ proj.toFinset.card := by
        rw [hcard, hlen, Finset.card_range]
      have heq : proj.toFinset = Finset.range names.length :=
        Finset.eq_of_subset_of_card_le hsub hcards
      have : i ∈ proj.toFinset := by
        rw [heq]
        exact Finset.mem_range.mpr hi
      exact List.mem_toFinset.mp this
    rw [scanColumnList, if_neg (by simp [hlen0, hlenn])]
    congr 1
    apply List.map_congr_left
    intro idx hidx
    rw [if_pos (hbd idx hidx)]

/-- C4 witness: the scenario from the claim — columns `id`, `name`,
`status`, projection `[0, 2]`, remote table `Order` — yields exactly
`SELECT "id", "status" FROM "Order"`. -/
theorem scan_init_projection_witness :
    ([0, 2] : List Nat).Nodup ∧ (∀ i ∈ ([0, 2] : List Nat), i < namesW.length) ∧
    scanColumnList namesW [0, 2] =
      joinComma (([0, 2] : List Nat).map (fun idx => quoteIdent (namesW.getD idx []))) ∧
    scanInitQuery namesW [] (String.toList "Order") [0, 2] =
      String.toList "SELECT \"id\", \"status\" FROM \"Order\"" :=
  ⟨by decide, by decide,
   (scan_init_projection namesW [0, 2] (by decide) (by decide)).2 (by decide)
     (fun hf => by simpa using hf 1 (by decide)),
   by decide⟩

/-- The greedy group parse consumes an escaped identifier entirely, up to
the closing quote at the end of the input. -/
theorem parseGroup_escQ (t : List Char) :
    parseGroup (escQ t ++ ['"']) = some (escQ t, []) := by
  induction t with
  | nil => rfl
  | cons c rest ih =>
    by_cases hc : c = '"'
    · subst hc
      have he : escQ ('"' :: rest) ++ ['"'] = '"' :: '"' :: (escQ rest ++ ['"']) := by
        simp [escQ]
      rw [he, parseGroup, if_pos rfl, if_pos rfl, ih]
      simp [escQ]
    · cases hE : escQ rest ++ ['"'] with
      | nil => simp at hE
      | cons d ds =>
        have he : escQ (c :: rest) ++ ['"'] = c :: d :: ds := by
          simp [escQ, hc, hE]
        rw [he, parseGroup, if_neg hc, ← hE, ih]
        simp [escQ, hc]

/-- Unescaping undoes escaping. -/
theorem unescapeQ_escQ (t : List Char) : unescapeQ (escQ t) = t := by
  induction t with
  | nil => rfl
  | cons c rest ih =>
    by_cases hc : c = '"'
    · subst hc
      have he : escQ ('"' :: rest) = '"' :: '"' :: escQ rest := by simp [escQ]
      rw [he, unescapeQ, if_pos ⟨rfl, rfl⟩, ih]
    · have he : escQ (c :: rest) = c :: escQ rest := by simp [escQ, hc]
      rw [he]
      cases hE : escQ rest with
      | nil =>
        rw [hE] at ih
        simp [unescapeQ] at ih
        simp [unescapeQ, ih]
      | cons d ds =>
        rw [unescapeQ, if_neg (fun hb => hc hb.1), ← hE, ih]

/-- The anchored first regex matches the head of a `SELECT *` query built
over an escaped table name and captures exactly the escaped name. -/
theorem matchProjAt_build (t : List Char) :
    matchProjAt ('S' :: 'E' :: 'L' :: 'E' :: 'C' :: 'T' :: ' ' :: '*' :: ' ' ::
      'F' :: 'R' :: 'O' :: 'M' :: ' ' :: '"' :: (escQ t ++ ['"'])) = some (escQ t) := by
  show (match parseGroup (escQ t ++ ['"']) with
        | none => none
        | some (g, _) => some g) = some (escQ t)
  rw [parseGroup_escQ]

/-- C8 (counterexample): with a non-empty column list the extraction
regexes of `extractTableName` (both require a literal `SELECT *`) fail,
so the round trip returns the empty string instead of the table name:
`extractTableName (buildProjectedQuery "t" ["c1"]) = "" ≠ "t"`. -/
theorem quote_roundtrip_counterexample :
    extractTableName (buildProjectedQuery (String.toList "t")
      [String.toList "c1"]) = [] ∧
    (String.toList "t") ≠ [] := by
  exact ⟨by decide, by decide⟩

/-- C8 (amended): for every table name `t`, with any number of quote
characters, the round trip holds for the queries `extractTableName` is
designed for — the `SELECT *` form that `buildProjectedQuery` emits when
the column list is empty: `extractTableName (buildProjectedQuery t []) =
t`.  With a non-empty column list the extraction fails (see the
counterexample). -/
theorem quote_roundtrip_amended (t : List Char) :
    extractTableName (buildProjectedQuery t []) = t := by
  have hb : buildProjectedQuery t [] =
      'S' :: 'E' :: 'L' :: 'E' :: 'C' :: 'T' :: ' ' :: '*' :: ' ' ::
        'F' :: 'R' :: 'O' :: 'M' :: ' ' :: '"' :: (escQ t ++ ['"']) := rfl
  rw [hb]
  have hfind : findProjMatch ('S' :: 'E' :: 'L' :: 'E' :: 'C' :: 'T' :: ' ' :: '*' ::
      ' ' :: 'F' :: 'R' :: 'O' :: 'M' :: ' ' :: '"' :: (escQ t ++ ['"'])) =
      some (escQ t) := by
    rw [show findProjMatch ('S' :: 'E' :: 'L' :: 'E' :: 'C' :: 'T' :: ' ' :: '*' ::
        ' ' :: 'F' :: 'R' :: 'O' :: 'M' :: ' ' :: '"' :: (escQ t ++ ['"'])) =
        (match matchProjAt ('S' :: 'E' :: 'L' :: 'E' :: 'C' :: 'T' :: ' ' :: '*' ::
          ' ' :: 'F' :: 'R' :: 'O' :: 'M' :: ' ' :: '"' :: (escQ t ++ ['"'])) with
         | some g => some g
         | none => findProjMatch ('E' :: 'L' :: 'E' :: 'C' :: 'T' :: ' ' :: '*' ::
             ' ' :: 'F' :: 'R' :: 'O' :: 'M' :: ' ' :: '"' :: (escQ t ++ ['"']))) from rfl]
    rw [matchProjAt_build]
  rw [extractTableName, hfind]
  exact unescapeQ_escQ t

/-- C10 witness: the health facts applied to the concretely connected
client and to the entry created by `opsW`. -/
theorem client_health_preserved_witness :
    connectClient true = some ⟨some (), some ()⟩ ∧
    isHealthyM ⟨some (), some ()⟩ = true ∧
    closeClient ⟨some (), some ()⟩ = ⟨some (), some ()⟩ ∧
    isHealthyM (closeClient ⟨some (), some ()⟩) = true ∧
    isHealthyM entryW.client = true :=
  ⟨rfl,
   (client_health_preserved.1 true ⟨some (), some ()⟩ rfl).1,
   (client_health_preserved.1 true ⟨some (), some ()⟩ rfl).2.1,
   (client_health_preserved.1 true ⟨some (), some ()⟩ rfl).2.2,
   client_health_preserved.2 opsW (encodeConfig cfgW) entryW (by decide)⟩

end Duckarrow
